import Mathlib

/-!
# etcdstore: session store backed by etcd

A shallow embedding of `store.go` (package `etcdstore`).

* Go strings are Lean `String`s, `[]byte` is `List Byte` with `Byte = Fin 256`.
* The etcd client, the securecookie codecs and the HTTP request are external
  collaborators: they are taken as parameters (records of functions), and the
  backend state is passed explicitly.
* A `ResponseWriter` records the `Set-Cookie` headers that `http.SetCookie` adds, each seen
  through the cookie pair it starts with; `http.SetCookie` follows net/http: no header for a
  name that is not a token, and a value without the bytes a cookie value cannot hold.
* `encoding/base32` and `strings.TrimRight` are library functions; they are
  written out here following RFC 4648 and the Go documentation.
-/

namespace etcdstore

/-! ## Library functions used by `Save` -/

/-- One octet of a Go byte slice. -/
abbrev Byte := Fin 256

/-- The alphabet of `base32.StdEncoding`, as defined in RFC 4648. -/
def encodeStd : List Char :=
  ['A', 'B', 'C', 'D', 'E', 'F', 'G', 'H', 'I', 'J', 'K', 'L', 'M', 'N', 'O', 'P',
   'Q', 'R', 'S', 'T', 'U', 'V', 'W', 'X', 'Y', 'Z', '2', '3', '4', '5', '6', '7']

/-- The padding character of `base32.StdEncoding`. -/
def StdPadding : Char := '='

/-- Table lookup `enc.encode[b&31]`. -/
def encodeChar (b : Nat) : Char := encodeStd.getD (b % 32) 'A'

/-- A character of the standard base32 alphabet: `A`-`Z` or `2`-`7`. -/
def IsStdChar (c : Char) : Prop := ('A' ≤ c ∧ c ≤ 'Z') ∨ ('2' ≤ c ∧ c ≤ '7')

instance (c : Char) : Decidable (IsStdChar c) := by unfold IsStdChar; infer_instance

/-- The quantum loop of `(*Encoding).Encode`: every 5 source bytes give 8 characters, each
naming 5 bits; a final group of 1 to 4 bytes gives 2, 4, 5 or 7 characters and is padded to 8. -/
def Encode : List Byte → List Char
  | [] => []
  | [s0] =>
      [encodeChar (s0.val / 8), encodeChar (s0.val * 4 % 32),
       StdPadding, StdPadding, StdPadding, StdPadding, StdPadding, StdPadding]
  | [s0, s1] =>
      [encodeChar (s0.val / 8), encodeChar (s0.val * 4 % 32 + s1.val / 64),
       encodeChar (s1.val / 2 % 32), encodeChar (s1.val * 16 % 32),
       StdPadding, StdPadding, StdPadding, StdPadding]
  | [s0, s1, s2] =>
      [encodeChar (s0.val / 8), encodeChar (s0.val * 4 % 32 + s1.val / 64),
       encodeChar (s1.val / 2 % 32), encodeChar (s1.val * 16 % 32 + s2.val / 16),
       encodeChar (s2.val * 2 % 32),
       StdPadding, StdPadding, StdPadding]
  | [s0, s1, s2, s3] =>
      [encodeChar (s0.val / 8), encodeChar (s0.val * 4 % 32 + s1.val / 64),
       encodeChar (s1.val / 2 % 32), encodeChar (s1.val * 16 % 32 + s2.val / 16),
       encodeChar (s2.val * 2 % 32 + s3.val / 128), encodeChar (s3.val / 4 % 32),
       encodeChar (s3.val * 8 % 32),
       StdPadding]
  | s0 :: s1 :: s2 :: s3 :: s4 :: src =>
      encodeChar (s0.val / 8) :: encodeChar (s0.val * 4 % 32 + s1.val / 64) ::
      encodeChar (s1.val / 2 % 32) :: encodeChar (s1.val * 16 % 32 + s2.val / 16) ::
      encodeChar (s2.val * 2 % 32 + s3.val / 128) :: encodeChar (s3.val / 4 % 32) ::
      encodeChar (s3.val * 8 % 32 + s4.val / 32) :: encodeChar (s4.val % 32) ::
      Encode src

/-- Go `base32.StdEncoding.EncodeToString`. -/
def EncodeToString (src : List Byte) : String := String.mk (Encode src)

/-- Go `strings.TrimRight(s, cutset)`: `s` without its trailing characters that occur in
`cutset`. -/
def TrimRight (s cutset : String) : String :=
  String.mk (s.data.rdropWhile (fun c => cutset.data.contains c))

/-! ## External collaborators -/

/-- Go `error` values that `store.go` can see. Errors raised inside a codec or inside the
etcd client are kept as their message. -/
inductive GoError where
  /-- The error securecookie returns when the codec list is empty. -/
  | errNoCodecs
  /-- The type `securecookie.MultiError`: the errors of all codecs that were tried. -/
  | MultiError (errors : List String)
  /-- An error returned by the etcd client. -/
  | etcd (msg : String)
  /-- The value `errors.New("Kvs empty")` of `load`. -/
  | KvsEmpty
  deriving DecidableEq, Repr

/-- The type `map[interface{}]interface{}` of `session.Values`. The store never looks inside
it: it only hands it to the codecs. -/
abbrev Values := List (String × String)

/-- The interface `securecookie.Codec`, at the two dynamic types `store.go` passes for
`value` and `dst`: a `string` (the session ID) and the values map. `Decode` writes through
the pointer `dst`; here it returns the new content of `dst` with the error, if any. -/
structure Codec where
  EncodeID : (name : String) → (value : String) → Except String String
  EncodeValues : (name : String) → (value : Values) → Except String String
  DecodeID : (name : String) → (value : String) → (dst : String) → String × Option String
  DecodeValues : (name : String) → (value : String) → (dst : Values) → Values × Option String

/-- The loop of `securecookie.EncodeMulti`: the first codec that encodes wins. -/
def EncodeMulti.loop {α : Type} (Encode : Codec → String → α → Except String String)
    (name : String) (value : α) : List Codec → List String → Except GoError String
  | [], errors => .error (.MultiError errors)
  | codec :: codecs, errors =>
      match Encode codec name value with
      | .ok encoded => .ok encoded
      | .error err => EncodeMulti.loop Encode name value codecs (errors ++ [err])

/-- Go `securecookie.EncodeMulti(name, value, codecs...)`. -/
def EncodeMulti {α : Type} (Encode : Codec → String → α → Except String String)
    (name : String) (value : α) (codecs : List Codec) : Except GoError String :=
  if codecs.length = 0 then .error .errNoCodecs
  else EncodeMulti.loop Encode name value codecs []

/-- The loop of `securecookie.DecodeMulti`: the first codec that decodes wins. -/
def DecodeMulti.loop {α : Type} (Decode : Codec → String → String → α → α × Option String)
    (name value : String) : List Codec → α → List String → α × Option GoError
  | [], dst, errors => (dst, some (.MultiError errors))
  | codec :: codecs, dst, errors =>
      match Decode codec name value dst with
      | (dst, none) => (dst, none)
      | (dst, some err) => DecodeMulti.loop Decode name value codecs dst (errors ++ [err])

/-- Go `securecookie.DecodeMulti(name, value, dst, codecs...)`; the first component of the
result is what `dst` holds afterwards. -/
def DecodeMulti {α : Type} (Decode : Codec → String → String → α → α × Option String)
    (name value : String) (dst : α) (codecs : List Codec) : α × Option GoError :=
  if codecs.length = 0 then (dst, some .errNoCodecs)
  else DecodeMulti.loop Decode name value codecs dst []

/-- A record `mvccpb.KeyValue` of a `clientv3.GetResponse`. -/
structure KeyValue where
  Key : String
  Value : String
  deriving DecidableEq, Repr

/-- The two calls `store.go` makes on `*clientv3.Client`, over a backend state `σ`. Each call
returns the state it leaves behind. `Get` returns the field `Kvs` of the response. -/
structure Client (σ : Type) where
  Put : σ → (key : String) → (val : String) → σ × Option String
  Get : σ → (key : String) → σ × Except String (List KeyValue)

/-- The type `sessions.Options`. -/
structure Options where
  Path : String
  Domain : String
  MaxAge : Int
  Secure : Bool
  HttpOnly : Bool
  deriving DecidableEq, Repr

/-- The type `http.Cookie`. `Expires` is left out: `sessions.NewCookie` takes it from the
clock. -/
structure Cookie where
  Name : String
  Value : String
  Path : String
  Domain : String
  MaxAge : Int
  Secure : Bool
  HttpOnly : Bool
  deriving DecidableEq, Repr

/-- An `*http.Request`, seen through its method `Cookie(name)`: `some c` stands for
`(c, nil)` and `none` for `(nil, http.ErrNoCookie)`. -/
structure Request where
  Cookie : (name : String) → Option Cookie

/-- A `Set-Cookie` header on the response, seen through the cookie pair it starts with:
`Name=Value`. The attributes that follow the pair (`Path`, `Domain`, `Expires`, `Max-Age`,
...) are not part of the model. -/
structure SetCookieHeader where
  Name : String
  Value : String
  deriving DecidableEq, Repr

/-- An `http.ResponseWriter`, seen through the `Set-Cookie` headers added to it. -/
structure ResponseWriter where
  SetCookies : List SetCookieHeader
  deriving DecidableEq, Repr

/-- Go `httpguts.IsTokenRune`: the token characters of RFC 7230, which are the letters, the
digits and the marks of codes 0x21, 0x23-0x27, 0x2A, 0x2B, 0x2D, 0x2E, 0x5E, 0x5F, 0x60,
0x7C and 0x7E. -/
def IsTokenRune (c : Char) : Bool :=
  c.toNat = 0x21 || (0x23 ≤ c.toNat && c.toNat ≤ 0x27) || c.toNat = 0x2A || c.toNat = 0x2B ||
    c.toNat = 0x2D || c.toNat = 0x2E || (0x30 ≤ c.toNat && c.toNat ≤ 0x39) ||
    (0x41 ≤ c.toNat && c.toNat ≤ 0x5A) || (0x5E ≤ c.toNat && c.toNat ≤ 0x7A) ||
    c.toNat = 0x7C || c.toNat = 0x7E

/-- Go `isCookieNameValid` of net/http: the name is not empty and all its characters are
token characters. -/
def isCookieNameValid (raw : String) : Bool :=
  raw ≠ "" && raw.data.all IsTokenRune

/-- Go `validCookieValueByte` of net/http: a visible ASCII byte or a space, other than the
double quote (0x22), the semicolon (0x3B) and the backslash (0x5C). A character beyond ASCII
is a run of bytes from 0x80 on, none of them valid. -/
def validCookieValueByte (c : Char) : Bool :=
  0x20 ≤ c.toNat && c.toNat < 0x7f && c.toNat != 0x22 && c.toNat != 0x3B && c.toNat != 0x5C

/-- Go `sanitizeCookieValue` of net/http: the bytes that are not valid are removed, and what
is left is put between double quotes when it holds a space or a comma. -/
def sanitizeCookieValue (v : String) : String :=
  let v := String.mk (v.data.filter validCookieValueByte)
  if v.data.length = 0 then v
  else if v.data.contains ' ' || v.data.contains ',' then
    String.mk (Char.ofNat 0x22 :: v.data ++ [Char.ofNat 0x22])
  else v

/-- Go `http.SetCookie(w, cookie)`: the header is added when `cookie.String()` is not
empty, that is when the name of the cookie is valid; the value is written through
`sanitizeCookieValue`. -/
def SetCookie (w : ResponseWriter) (cookie : Cookie) : ResponseWriter :=
  if isCookieNameValid cookie.Name then
    ⟨w.SetCookies ++ [⟨cookie.Name, sanitizeCookieValue cookie.Value⟩]⟩
  else w

/-- Go `sessions.NewCookie(name, value, options)`. -/
def NewCookie (name value : String) (options : Options) : Cookie :=
  ⟨name, value, options.Path, options.Domain, options.MaxAge, options.Secure, options.HttpOnly⟩

/-! ## The store -/

/-- The type `sessions.Session`; `name` is the private field read by `session.Name()`. -/
structure Session where
  ID : String
  Values : Values
  Options : Options
  IsNew : Bool
  name : String
  deriving DecidableEq, Repr

/-- Go `sessions.NewSession(store, name)`. -/
def NewSession (name : String) : Session :=
  ⟨"", [], ⟨"", "", 0, false, false⟩, false, name⟩

/-- The type `EtcdStore`. -/
structure EtcdStore (σ : Type) where
  Options : Options
  Codecs : List Codec
  client : Client σ

/-- What `EtcdStore.New` returns, with the backend state it leaves. -/
structure NewResult (σ : Type) where
  session : Session
  err : Option GoError
  kv : σ

/-- What `EtcdStore.Save` returns, with the session, response and backend state it leaves. -/
structure SaveResult (σ : Type) where
  err : Option GoError
  session : Session
  w : ResponseWriter
  kv : σ

/-- Method `(s *EtcdStore) load(session)`. -/
def EtcdStore.load {σ : Type} (s : EtcdStore σ) (kv : σ) (session : Session) :
    Session × Option GoError × σ :=
  match s.client.Get kv session.ID with
  | (kv, .error err) => (session, some (.etcd err), kv)
  | (kv, .ok Kvs) =>
      match Kvs with
      | [] => (session, some .KvsEmpty, kv)
      | first :: _ =>
          let data := first.Value
          match DecodeMulti Codec.DecodeValues session.name data session.Values s.Codecs with
          | (values, err) => ({ session with Values := values }, err, kv)

/-- Method `(s *EtcdStore) New(r, name)`. -/
def EtcdStore.New {σ : Type} (s : EtcdStore σ) (kv : σ) (r : Request) (name : String) :
    NewResult σ :=
  let session := NewSession name
  let session := { session with IsNew := true }
  let opts := s.Options
  let session := { session with Options := opts }
  let session := { session with IsNew := true }
  match r.Cookie name with
  | none => ⟨session, none, kv⟩
  | some c =>
      match DecodeMulti Codec.DecodeID name c.Value session.ID s.Codecs with
      | (id, some err) => ⟨{ session with ID := id }, some err, kv⟩
      | (id, none) =>
          match s.load kv { session with ID := id } with
          | (session, none, kv) => ⟨{ session with IsNew := false }, none, kv⟩
          | (session, some _, kv) => ⟨session, none, kv⟩

/-- Method `(s *EtcdStore) Save(r, w, session)`. `randomKey` is what
`securecookie.GenerateRandomKey(32)` returns when it is called. -/
def EtcdStore.Save {σ : Type} (s : EtcdStore σ) (kv : σ) (randomKey : List Byte)
    (_r : Request) (w : ResponseWriter) (session : Session) : SaveResult σ :=
  let session :=
    if session.ID = "" then
      { session with ID := TrimRight (EncodeToString randomKey) "=" }
    else session
  match EncodeMulti Codec.EncodeValues session.name session.Values s.Codecs with
  | .error err => ⟨some err, session, w, kv⟩
  | .ok encoded =>
      match s.client.Put kv session.ID encoded with
      | (kv, some err) => ⟨some (.etcd err), session, w, kv⟩
      | (kv, none) =>
          match EncodeMulti Codec.EncodeID session.name session.ID s.Codecs with
          | .error err => ⟨some err, session, w, kv⟩
          | .ok encoded =>
              ⟨none, session, SetCookie w (NewCookie session.name encoded session.Options), kv⟩

/-- The statements of `Save` that follow the `if`, on the session with its identifier
settled. A device for the proofs: `Save_eq` shows that `Save` runs exactly these. -/
def Save.rest {σ : Type} (s : EtcdStore σ) (kv : σ) (w : ResponseWriter)
    (session : Session) : SaveResult σ :=
  match EncodeMulti Codec.EncodeValues session.name session.Values s.Codecs with
  | .error err => ⟨some err, session, w, kv⟩
  | .ok encoded =>
      match s.client.Put kv session.ID encoded with
      | (kv, some err) => ⟨some (.etcd err), session, w, kv⟩
      | (kv, none) =>
          match EncodeMulti Codec.EncodeID session.name session.ID s.Codecs with
          | .error err => ⟨some err, session, w, kv⟩
          | .ok encoded =>
              ⟨none, session, SetCookie w (NewCookie session.name encoded session.Options), kv⟩

/-- The request `r` sends back the cookie of the header `c`: `r.Cookie(c.Name)` finds a
cookie, and it has the value of `c`. -/
def Request.carries (r : Request) (c : SetCookieHeader) : Prop :=
  ∃ c2, r.Cookie c.Name = some c2 ∧ c2.Value = c.Value

/-! ## Concrete collaborators used to run the store -/

/-- An in-memory backend: `Put` replaces the record of the key, `Get` returns it. -/
def memClient : Client (List KeyValue) where
  Put := fun kv key val => (⟨key, val⟩ :: kv.filter (fun r => r.Key ≠ key), none)
  Get := fun kv key => (kv, .ok (kv.filter (fun r => r.Key = key)))

/-- A backend that is down: every call fails. -/
def downClient : Client Unit where
  Put := fun _ _ _ => ((), some "etcdserver: request timed out")
  Get := fun _ _ => ((), .error "etcdserver: request timed out")

/-- Remove a leading `p` from `s`, if it is there. -/
def stripLead : List Char → List Char → Option (List Char)
  | [], s => some s
  | _ :: _, [] => none
  | a :: p, b :: s => if a = b then stripLead p s else none

/-- Split at the first `sep`. -/
def cutAt (sep : Char) : List Char → Option (List Char × List Char)
  | [] => none
  | c :: cs =>
      if c = sep then some ([], cs)
      else match cutAt sep cs with
        | none => none
        | some (a, b) => some (c :: a, b)

/-- Write one pair of a values map as `key=value;`. -/
def writePair (p : String × String) : Except String (List Char) :=
  if p.1.data.contains '=' || p.1.data.contains ';' || p.2.data.contains '=' ||
      p.2.data.contains ';' then .error "toy: value cannot be serialised"
  else .ok (p.1.data ++ '=' :: p.2.data ++ [';'])

/-- Write a values map as a sequence of `key=value;`. -/
def writeValues : Values → Except String (List Char)
  | [] => .ok []
  | p :: ps =>
      match writePair p, writeValues ps with
      | .ok a, .ok b => .ok (a ++ b)
      | .error e, _ => .error e
      | _, .error e => .error e

/-- Read back what `writeValues` wrote; `fuel` bounds the number of pairs. -/
def readValues : Nat → List Char → Option Values
  | _, [] => some []
  | 0, _ :: _ => none
  | fuel + 1, c :: cs =>
      match cutAt '=' (c :: cs) with
      | none => none
      | some (k, rest) =>
          match cutAt ';' rest with
          | none => none
          | some (v, rest) =>
              match readValues fuel rest with
              | none => none
              | some ps => some ((String.mk k, String.mk v) :: ps)

/-- A toy codec keyed by `key`: the token is `key|name|payload`, and decoding checks the
lead `key|name|`. It stands in for a securecookie codec when the store is run. -/
def toyCodec (key : String) : Codec where
  EncodeID := fun name value => .ok (key ++ "|" ++ name ++ "|" ++ value)
  EncodeValues := fun name value =>
    match writeValues value with
    | .ok payload => .ok (key ++ "|" ++ name ++ "|" ++ String.mk payload)
    | .error e => .error e
  DecodeID := fun name value dst =>
    match stripLead (key ++ "|" ++ name ++ "|").data value.data with
    | some payload => (String.mk payload, none)
    | none => (dst, some "toy: the value is not valid")
  DecodeValues := fun name value dst =>
    match stripLead (key ++ "|" ++ name ++ "|").data value.data with
    | some payload =>
        match readValues payload.length payload with
        | some values => (values, none)
        | none => (dst, some "toy: the value is not valid")
    | none => (dst, some "toy: the value is not valid")

/-- A store over the in-memory backend with one toy codec. -/
def memStore : EtcdStore (List KeyValue) :=
  ⟨⟨"/", "", 3600, false, false⟩, [toyCodec "k1"], memClient⟩

/-- A store whose backend is down. -/
def downStore : EtcdStore Unit :=
  ⟨⟨"/", "", 3600, false, false⟩, [toyCodec "k1"], downClient⟩

/-- A request with no cookie. -/
def noCookies : Request := ⟨fun _ => none⟩

/-- A request with one cookie `name=value`. -/
def requestWith (name value : String) : Request :=
  ⟨fun n => if n = name then some ⟨name, value, "", "", 0, false, false⟩ else none⟩

/-- Thirty-two bytes for the random source: 0, 1, ..., 31. -/
def someKey : List Byte := List.ofFn (fun i : Fin 32 => Fin.ofNat i.val)

/-! ## The encoding on the test vectors of RFC 4648 -/

/-- The model of `EncodeToString` gives the base32 test vectors of RFC 4648, section 10
(the bytes of `f`, `fo`, `foo`, `foob`, `fooba`, `foobar`). -/
theorem EncodeToString_test_vectors :
    EncodeToString [] = "" ∧
      EncodeToString [102] = "MY======" ∧
      EncodeToString [102, 111] = "MZXQ====" ∧
      EncodeToString [102, 111, 111] = "MZXW6===" ∧
      EncodeToString [102, 111, 111, 98] = "MZXW6YQ=" ∧
      EncodeToString [102, 111, 111, 98, 97] = "MZXW6YTB" ∧
      EncodeToString [102, 111, 111, 98, 97, 114] = "MZXW6YTBOI======" := by
  decide

/-- The function `TrimRight` removes trailing characters of the cutset only. -/
theorem TrimRight_examples :
    TrimRight "MZXW6YTBOI======" "=" = "MZXW6YTBOI" ∧ TrimRight "a=b==" "=" = "a=b" ∧
      TrimRight "" "=" = "" := by
  decide

/-- The model of `http.SetCookie` on three cookies: a name with a space gives no header, a
semicolon is removed from the value, and a cookie of token name and plain value is written
as it is. -/
theorem SetCookie_examples :
    SetCookie ⟨[]⟩ ⟨"bad name", "v", "/", "", 0, false, false⟩ = ⟨[]⟩ ∧
      SetCookie ⟨[]⟩ ⟨"session", "k1|session|a;b", "/", "", 0, false, false⟩ =
        ⟨[⟨"session", "k1|session|ab"⟩]⟩ ∧
      SetCookie ⟨[]⟩ ⟨"session", "k1|session|AB", "/", "", 0, false, false⟩ =
        ⟨[⟨"session", "k1|session|AB"⟩]⟩ := by
  decide

/-! ## Lemmas on the identifier encoding -/

theorem encodeChar_std (b : Nat) : IsStdChar (encodeChar b) := by
  have h : ∀ i : Fin 32, IsStdChar (encodeChar i.val) := by decide
  have := h ⟨b % 32, Nat.mod_lt _ (by decide)⟩
  simpa [encodeChar] using this

theorem encodeChar_inj {a b : Nat} (ha : a < 32) (hb : b < 32)
    (h : encodeChar a = encodeChar b) : a = b := by
  have key : ∀ i j : Fin 32, encodeChar i.val = encodeChar j.val → i = j := by decide
  have := key ⟨a, ha⟩ ⟨b, hb⟩ h
  exact Fin.mk.inj this

theorem IsStdChar.ne_pad {c : Char} (h : IsStdChar c) : c ≠ '=' := by
  rintro rfl
  revert h
  decide

/-- Induction over a byte slice, five bytes at a time, as the loop of `Encode` walks it. -/
theorem quantum_induction {P : List Byte → Prop} (h0 : P [])
    (h1 : ∀ a, P [a]) (h2 : ∀ a b, P [a, b]) (h3 : ∀ a b c, P [a, b, c])
    (h4 : ∀ a b c d, P [a, b, c, d])
    (h5 : ∀ a b c d e src, P src → P (a :: b :: c :: d :: e :: src)) : ∀ src, P src
  | [] => h0
  | [a] => h1 a
  | [a, b] => h2 a b
  | [a, b, c] => h3 a b c
  | [a, b, c, d] => h4 a b c d
  | a :: b :: c :: d :: e :: src =>
      h5 a b c d e src (quantum_induction h0 h1 h2 h3 h4 h5 src)

/-- The output of `Encode` is a run of alphabet characters followed by the padding. -/
theorem Encode_split (src : List Byte) :
    ∃ body : List Char,
      Encode src = body ++ List.replicate (8 * ((src.length + 4) / 5) - (8 * src.length + 4) / 5) '=' ∧
      (∀ c ∈ body, IsStdChar c) ∧ body.length = (8 * src.length + 4) / 5 := by
  induction src using quantum_induction with
  | h0 => exact ⟨[], by simp [Encode]⟩
  | h1 a =>
      exact ⟨[encodeChar (a.val / 8), encodeChar (a.val * 4 % 32)], by
        simp [Encode, StdPadding, encodeChar_std, List.replicate]⟩
  | h2 a b =>
      exact ⟨[encodeChar (a.val / 8), encodeChar (a.val * 4 % 32 + b.val / 64),
        encodeChar (b.val / 2 % 32), encodeChar (b.val * 16 % 32)], by
        simp [Encode, StdPadding, encodeChar_std, List.replicate]⟩
  | h3 a b c =>
      exact ⟨[encodeChar (a.val / 8), encodeChar (a.val * 4 % 32 + b.val / 64),
        encodeChar (b.val / 2 % 32), encodeChar (b.val * 16 % 32 + c.val / 16),
        encodeChar (c.val * 2 % 32)], by
        simp [Encode, StdPadding, encodeChar_std, List.replicate]⟩
  | h4 a b c d =>
      exact ⟨[encodeChar (a.val / 8), encodeChar (a.val * 4 % 32 + b.val / 64),
        encodeChar (b.val / 2 % 32), encodeChar (b.val * 16 % 32 + c.val / 16),
        encodeChar (c.val * 2 % 32 + d.val / 128), encodeChar (d.val / 4 % 32),
        encodeChar (d.val * 8 % 32)], by
        simp [Encode, StdPadding, encodeChar_std, List.replicate]⟩
  | h5 a b c d e src ih =>
      obtain ⟨body, hE, hstd, hlen⟩ := ih
      refine ⟨encodeChar (a.val / 8) :: encodeChar (a.val * 4 % 32 + b.val / 64) ::
        encodeChar (b.val / 2 % 32) :: encodeChar (b.val * 16 % 32 + c.val / 16) ::
        encodeChar (c.val * 2 % 32 + d.val / 128) :: encodeChar (d.val / 4 % 32) ::
        encodeChar (d.val * 8 % 32 + e.val / 32) :: encodeChar (e.val % 32) :: body, ?_, ?_, ?_⟩
      · have hn : 8 * (((a :: b :: c :: d :: e :: src).length + 4) / 5) -
            (8 * (a :: b :: c :: d :: e :: src).length + 4) / 5 =
            8 * ((src.length + 4) / 5) - (8 * src.length + 4) / 5 := by
          have h1 : (src.length + 1 + 1 + 1 + 1 + 1 + 4) / 5 = (src.length + 4) / 5 + 1 := by
            omega
          have h2 : (8 * (src.length + 1 + 1 + 1 + 1 + 1) + 4) / 5 =
              (8 * src.length + 4) / 5 + 8 := by omega
          simp only [List.length_cons, h1, h2]
          omega
        rw [hn, Encode, hE]
        simp
      · intro ch hch
        simp only [List.mem_cons] at hch
        rcases hch with h | h | h | h | h | h | h | h | h
        any_goals (rw [h]; exact encodeChar_std _)
        exact hstd ch h
      · simp only [List.length_cons, hlen]
        omega

/-- Trailing padding is what `TrimRight` removes from an encoding, and nothing else. -/
theorem rdropWhile_body_pad (body : List Char) (n : Nat) (h : ∀ c ∈ body, IsStdChar c) :
    (body ++ List.replicate n '=').rdropWhile (fun c => "=".data.contains c) = body := by
  induction n with
  | zero =>
      simp only [List.replicate_zero, List.append_nil]
      rw [List.rdropWhile_eq_self_iff]
      intro hl
      have := (h _ (List.getLast_mem hl)).ne_pad
      simpa using this
  | succ n ih =>
      rw [List.replicate_succ', ← List.append_assoc, List.rdropWhile_concat_pos _ _ _ (by decide)]
      exact ih

theorem TrimRight_EncodeToString (src : List Byte) :
    ∃ body : List Char,
      TrimRight (EncodeToString src) "=" = String.mk body ∧
      Encode src = body ++ List.replicate (8 * ((src.length + 4) / 5) - (8 * src.length + 4) / 5) '=' ∧
      (∀ c ∈ body, IsStdChar c) ∧ body.length = (8 * src.length + 4) / 5 := by
  obtain ⟨body, hE, hstd, hlen⟩ := Encode_split src
  refine ⟨body, ?_, hE, hstd, hlen⟩
  simp only [TrimRight, EncodeToString, hE]
  rw [rdropWhile_body_pad body _ hstd]

/-- Equal encodings of byte slices of one length come from equal slices. -/
theorem Encode_injective (src : List Byte) :
    ∀ src2 : List Byte, src.length = src2.length → Encode src = Encode src2 → src = src2 := by
  induction src using quantum_induction with
  | h0 =>
      intro src2 hl _
      exact (List.length_eq_zero.mp hl.symm).symm
  | h1 a =>
      intro src2 hl h
      rcases src2 with _ | ⟨a2, _ | ⟨b2, src2⟩⟩ <;> simp at hl
      simp only [Encode, List.cons.injEq] at h
      have q1 := encodeChar_inj (by omega) (by omega) h.1
      have q2 := encodeChar_inj (by omega) (by omega) h.2.1
      have : a = a2 := Fin.ext (by omega)
      simp [this]
  | h2 a b =>
      intro src2 hl h
      rcases src2 with _ | ⟨a2, _ | ⟨b2, _ | ⟨c2, src2⟩⟩⟩ <;> simp at hl
      simp only [Encode, List.cons.injEq] at h
      have q1 := encodeChar_inj (by omega) (by omega) h.1
      have q2 := encodeChar_inj (by omega) (by omega) h.2.1
      have q3 := encodeChar_inj (by omega) (by omega) h.2.2.1
      have q4 := encodeChar_inj (by omega) (by omega) h.2.2.2.1
      have ha : a = a2 := Fin.ext (by omega)
      have hb : b = b2 := Fin.ext (by omega)
      simp [ha, hb]
  | h3 a b c =>
      intro src2 hl h
      rcases src2 with _ | ⟨a2, _ | ⟨b2, _ | ⟨c2, _ | ⟨d2, src2⟩⟩⟩⟩ <;> simp at hl
      simp only [Encode, List.cons.injEq] at h
      have q1 := encodeChar_inj (by omega) (by omega) h.1
      have q2 := encodeChar_inj (by omega) (by omega) h.2.1
      have q3 := encodeChar_inj (by omega) (by omega) h.2.2.1
      have q4 := encodeChar_inj (by omega) (by omega) h.2.2.2.1
      have q5 := encodeChar_inj (by omega) (by omega) h.2.2.2.2.1
      have ha : a = a2 := Fin.ext (by omega)
      have hb : b = b2 := Fin.ext (by omega)
      have hc : c = c2 := Fin.ext (by omega)
      simp [ha, hb, hc]
  | h4 a b c d =>
      intro src2 hl h
      rcases src2 with _ | ⟨a2, _ | ⟨b2, _ | ⟨c2, _ | ⟨d2, _ | ⟨g2, src2⟩⟩⟩⟩⟩ <;> simp at hl
      simp only [Encode, List.cons.injEq] at h
      obtain ⟨h1, h2, h3, h4, h5, h6, h7, -⟩ := h
      have q1 := encodeChar_inj (by omega) (by omega) h1
      have q2 := encodeChar_inj (by omega) (by omega) h2
      have q3 := encodeChar_inj (by omega) (by omega) h3
      have q4 := encodeChar_inj (by omega) (by omega) h4
      have q5 := encodeChar_inj (by omega) (by omega) h5
      have q6 := encodeChar_inj (by omega) (by omega) h6
      have q7 := encodeChar_inj (by omega) (by omega) h7
      clear h1 h2 h3 h4 h5 h6 h7
      have ha : a = a2 := Fin.ext (by clear q3 q4 q5 q6 q7; omega)
      have hb : b = b2 := Fin.ext (by clear q1 q5 q6 q7; omega)
      have hc : c = c2 := Fin.ext (by clear q1 q2 q3 q6 q7; omega)
      have hd : d = d2 := Fin.ext (by clear q1 q2 q3 q4; omega)
      simp [ha, hb, hc, hd]
  | h5 a b c d e src ih =>
      intro src2 hl h
      rcases src2 with _ | ⟨a2, _ | ⟨b2, _ | ⟨c2, _ | ⟨d2, _ | ⟨g2, src2⟩⟩⟩⟩⟩ <;> simp at hl
      simp only [Encode, List.cons.injEq] at h
      obtain ⟨h1, h2, h3, h4, h5, h6, h7, h8, hrest⟩ := h
      have q1 := encodeChar_inj (by omega) (by omega) h1
      have q2 := encodeChar_inj (by omega) (by omega) h2
      have q3 := encodeChar_inj (by omega) (by omega) h3
      have q4 := encodeChar_inj (by omega) (by omega) h4
      have q5 := encodeChar_inj (by omega) (by omega) h5
      have q6 := encodeChar_inj (by omega) (by omega) h6
      have q7 := encodeChar_inj (by omega) (by omega) h7
      have q8 := encodeChar_inj (by omega) (by omega) h8
      clear h1 h2 h3 h4 h5 h6 h7 h8
      have ha : a = a2 := Fin.ext (by clear q3 q4 q5 q6 q7 q8; omega)
      have hb : b = b2 := Fin.ext (by clear q1 q5 q6 q7 q8; omega)
      have hc : c = c2 := Fin.ext (by clear q1 q2 q3 q6 q7 q8; omega)
      have hd : d = d2 := Fin.ext (by clear q1 q2 q3 q4 q8; omega)
      have he : e = g2 := Fin.ext (by clear q1 q2 q3 q4 q5 q6; omega)
      have hsrc := ih src2 hl hrest
      simp [ha, hb, hc, hd, he, hsrc]

/-- The identifier `Save` derives from a random key determines the key, among keys of one
length. -/
theorem TrimRight_EncodeToString_injective (k1 k2 : List Byte) (hl : k1.length = k2.length)
    (h : TrimRight (EncodeToString k1) "=" = TrimRight (EncodeToString k2) "=") : k1 = k2 := by
  obtain ⟨body1, ht1, hE1, _, _⟩ := TrimRight_EncodeToString k1
  obtain ⟨body2, ht2, hE2, _, _⟩ := TrimRight_EncodeToString k2
  rw [ht1, ht2] at h
  have hb : body1 = body2 := congrArg String.data h
  apply Encode_injective k1 k2 hl
  rw [hE1, hE2, hb, hl]


/-! ## Lemmas on `Save` and `New` -/

theorem Save_eq {σ : Type} (s : EtcdStore σ) (kv : σ) (randomKey : List Byte)
    (r : Request) (w : ResponseWriter) (session : Session) :
    s.Save kv randomKey r w session =
      Save.rest s kv w (if session.ID = "" then
        { session with ID := TrimRight (EncodeToString randomKey) "=" } else session) := rfl

theorem Save.rest_session {σ : Type} (s : EtcdStore σ) (kv : σ) (w : ResponseWriter)
    (session : Session) : (Save.rest s kv w session).session = session := by
  unfold Save.rest
  split <;> [rfl; (split <;> [rfl; (split <;> rfl)])]

/-- The identifier of the session after `Save`: generated when empty, kept otherwise. -/
theorem Save_session_ID {σ : Type} (s : EtcdStore σ) (kv : σ) (randomKey : List Byte)
    (r : Request) (w : ResponseWriter) (session : Session) :
    (s.Save kv randomKey r w session).session.ID =
      if session.ID = "" then TrimRight (EncodeToString randomKey) "=" else session.ID := by
  rw [Save_eq, Save.rest_session]
  split <;> rfl

/-- The session `Save` works on differs from the one it was given in the identifier only. -/
theorem Save_session {σ : Type} (s : EtcdStore σ) (kv : σ) (randomKey : List Byte)
    (r : Request) (w : ResponseWriter) (session : Session) :
    (s.Save kv randomKey r w session).session =
      { session with ID := (s.Save kv randomKey r w session).session.ID } := by
  rw [Save_eq, Save.rest_session]
  split <;> rfl

/-- The run of `Save` when the values do not encode: no `Put`, no cookie. -/
theorem Save.rest_of_encode_error {σ : Type} (s : EtcdStore σ) (kv : σ) (w : ResponseWriter)
    (session : Session) (e : GoError)
    (henc : EncodeMulti Codec.EncodeValues session.name session.Values s.Codecs = .error e) :
    Save.rest s kv w session = ⟨some e, session, w, kv⟩ := by
  simp [Save.rest, henc]

/-- The run of `Save` when the values encode and `Put` fails: no cookie. -/
theorem Save.rest_of_put_error {σ : Type} (s : EtcdStore σ) (kv : σ) (w : ResponseWriter)
    (session : Session) (encoded : String) (kv1 : σ) (e : String)
    (henc : EncodeMulti Codec.EncodeValues session.name session.Values s.Codecs = .ok encoded)
    (hput : s.client.Put kv session.ID encoded = (kv1, some e)) :
    Save.rest s kv w session = ⟨some (.etcd e), session, w, kv1⟩ := by
  simp [Save.rest, henc, hput]

/-- The run of `Save` when it returns nil: both encodings and the `Put` went through. -/
theorem Save.rest_of_success {σ : Type} (s : EtcdStore σ) (kv : σ) (w : ResponseWriter)
    (session : Session) (h : (Save.rest s kv w session).err = none) :
    ∃ encV encID kv1,
      EncodeMulti Codec.EncodeValues session.name session.Values s.Codecs = .ok encV ∧
      s.client.Put kv session.ID encV = (kv1, none) ∧
      EncodeMulti Codec.EncodeID session.name session.ID s.Codecs = .ok encID ∧
      Save.rest s kv w session =
        ⟨none, session, SetCookie w (NewCookie session.name encID session.Options), kv1⟩ := by
  unfold Save.rest at h ⊢
  cases hV : EncodeMulti Codec.EncodeValues session.name session.Values s.Codecs with
  | error e => simp [hV] at h
  | ok encV =>
      rcases hP : s.client.Put kv session.ID encV with ⟨kv1, _ | e⟩
      · cases hI : EncodeMulti Codec.EncodeID session.name session.ID s.Codecs with
        | error e => simp [hV, hP, hI] at h
        | ok encID => exact ⟨encV, encID, kv1, rfl, hP, rfl, by simp [hP]⟩
      · simp [hV, hP] at h

/-- The backend state after `Save`, when the values encode: that of the `Put` under the
session identifier. -/
theorem Save.rest_kv {σ : Type} (s : EtcdStore σ) (kv : σ) (w : ResponseWriter)
    (session : Session) (encoded : String)
    (henc : EncodeMulti Codec.EncodeValues session.name session.Values s.Codecs = .ok encoded) :
    (Save.rest s kv w session).kv = (s.client.Put kv session.ID encoded).1 := by
  unfold Save.rest
  rw [henc]
  rcases hP : s.client.Put kv session.ID encoded with ⟨kv1, _ | e⟩
  · cases hI : EncodeMulti Codec.EncodeID session.name session.ID s.Codecs <;> simp [hP, hI]
  · simp [hP]

/-- The run of `load` when `Get` fails. -/
theorem load_of_get_error {σ : Type} (s : EtcdStore σ) (kv kv1 : σ) (session : Session)
    (e : String) (hget : s.client.Get kv session.ID = (kv1, .error e)) :
    s.load kv session = (session, some (.etcd e), kv1) := by
  simp [EtcdStore.load, hget]

/-- The run of `load` when `Get` returns no record. -/
theorem load_of_no_record {σ : Type} (s : EtcdStore σ) (kv kv1 : σ) (session : Session)
    (hget : s.client.Get kv session.ID = (kv1, .ok [])) :
    s.load kv session = (session, some .KvsEmpty, kv1) := by
  simp [EtcdStore.load, hget]

/-- The run of `load` when `Get` returns a record: its first value is decoded into the
values of the session. -/
theorem load_of_record {σ : Type} (s : EtcdStore σ) (kv kv1 : σ) (session : Session)
    (first : KeyValue) (rest : List KeyValue)
    (hget : s.client.Get kv session.ID = (kv1, .ok (first :: rest))) :
    s.load kv session =
      ({ session with Values :=
          (DecodeMulti Codec.DecodeValues session.name first.Value session.Values s.Codecs).1 },
        (DecodeMulti Codec.DecodeValues session.name first.Value session.Values s.Codecs).2,
        kv1) := by
  simp [EtcdStore.load, hget]

/-- The run of `New` when the cookie does not decode. -/
theorem New_of_decode_error {σ : Type} (s : EtcdStore σ) (kv : σ) (r : Request)
    (name : String) (c : Cookie) (id : String) (e : GoError)
    (hc : r.Cookie name = some c)
    (hd : DecodeMulti Codec.DecodeID name c.Value "" s.Codecs = (id, some e)) :
    s.New kv r name = ⟨⟨id, [], s.Options, true, name⟩, some e, kv⟩ := by
  simp only [EtcdStore.New, hc, NewSession, hd]

/-- The run of `New` when the cookie decodes: the outcome of `load` decides `IsNew`, and
its error is dropped. -/
theorem New_of_decode_ok {σ : Type} (s : EtcdStore σ) (kv : σ) (r : Request)
    (name : String) (c : Cookie) (id : String)
    (hc : r.Cookie name = some c)
    (hd : DecodeMulti Codec.DecodeID name c.Value "" s.Codecs = (id, none)) :
    s.New kv r name =
      match s.load kv ⟨id, [], s.Options, true, name⟩ with
      | (session, none, kv) => ⟨{ session with IsNew := false }, none, kv⟩
      | (session, some _, kv) => ⟨session, none, kv⟩ := by
  simp only [EtcdStore.New, hc, NewSession, hd]

/-- The run of `New` when the cookie decodes and `load` fails. -/
theorem New_of_load_error {σ : Type} (s : EtcdStore σ) (kv kv1 : σ) (r : Request)
    (name : String) (c : Cookie) (id : String) (session : Session) (e : GoError)
    (hc : r.Cookie name = some c)
    (hd : DecodeMulti Codec.DecodeID name c.Value "" s.Codecs = (id, none))
    (hl : s.load kv ⟨id, [], s.Options, true, name⟩ = (session, some e, kv1)) :
    s.New kv r name = ⟨session, none, kv1⟩ := by
  rw [New_of_decode_ok s kv r name c id hc hd, hl]

/-- The function `load` changes the values of the session at most. -/
theorem load_session {σ : Type} (s : EtcdStore σ) (kv : σ) (session : Session) :
    (s.load kv session).1 = { session with Values := (s.load kv session).1.Values } := by
  unfold EtcdStore.load
  rcases hG : s.client.Get kv session.ID with ⟨kv1, e | Kvs⟩
  · rfl
  · cases Kvs <;> rfl

/-! ## The claims -/

/-- C1, as stated, fails: a request carries the cookie `session=forged`, the codec chain
does not decode `forged`, and `New` returns the decode error, not nil. -/
theorem New_forged_cookie_returns_error :
    (requestWith "session" "forged").Cookie "session" =
        some ⟨"session", "forged", "", "", 0, false, false⟩ ∧
      (DecodeMulti Codec.DecodeID "session" "forged" "" memStore.Codecs).2 =
        some (.MultiError ["toy: the value is not valid"]) ∧
      (memStore.New [] (requestWith "session" "forged") "session").err =
        some (.MultiError ["toy: the value is not valid"]) ∧
      (memStore.New [] (requestWith "session" "forged") "session").err ≠ none := by
  decide

/-- C1, amended: when the request carries a cookie named `name` whose value does not decode
through the codec chain, `New` returns the decode error of the chain, with a session whose
`IsNew` is true. -/
theorem New_cookie_decode_failure {σ : Type} (s : EtcdStore σ) (kv : σ) (r : Request)
    (name : String) (c : Cookie) (e : GoError)
    (hc : r.Cookie name = some c)
    (hd : (DecodeMulti Codec.DecodeID name c.Value "" s.Codecs).2 = some e) :
    (s.New kv r name).err = some e ∧ (s.New kv r name).session.IsNew = true := by
  have h := New_of_decode_error s kv r name c
    (DecodeMulti Codec.DecodeID name c.Value "" s.Codecs).1 e hc (Prod.ext rfl hd)
  rw [h]
  exact ⟨rfl, rfl⟩

/-- C1, amended, on a run: the in-memory store and a request with the cookie `session=forged`. -/
theorem New_cookie_decode_failure_witness :
    (requestWith "session" "forged").Cookie "session" =
        some ⟨"session", "forged", "", "", 0, false, false⟩ ∧
      (memStore.New [] (requestWith "session" "forged") "session").err =
        some (.MultiError ["toy: the value is not valid"]) ∧
      (memStore.New [] (requestWith "session" "forged") "session").session.IsNew = true :=
  ⟨by decide,
    New_cookie_decode_failure memStore [] (requestWith "session" "forged") "session"
      ⟨"session", "forged", "", "", 0, false, false⟩
      (.MultiError ["toy: the value is not valid"]) (by decide) (by decide)⟩

/-- C2: when the cookie decodes to an identifier and the store read fails (`Get` returns an
error, `Get` returns no record, or the stored payload does not decode), `New` returns a nil
error and a session with `IsNew` true; when the record is missing, the values of the session
are empty. -/
theorem New_store_read_failure {σ : Type} (s : EtcdStore σ) (kv : σ) (r : Request)
    (name : String) (c : Cookie) (id : String)
    (hc : r.Cookie name = some c)
    (hd : DecodeMulti Codec.DecodeID name c.Value "" s.Codecs = (id, none))
    (hfail : (∃ e, (s.client.Get kv id).2 = .error e) ∨ (s.client.Get kv id).2 = .ok [] ∨
      ∃ first rest e, (s.client.Get kv id).2 = .ok (first :: rest) ∧
        (DecodeMulti Codec.DecodeValues name first.Value [] s.Codecs).2 = some e) :
    (s.New kv r name).err = none ∧ (s.New kv r name).session.IsNew = true ∧
      ((s.client.Get kv id).2 = .ok [] → (s.New kv r name).session.Values = []) := by
  rcases hfail with ⟨e, he⟩ | he | ⟨first, rest, e, he, hdec⟩
  · have hl := load_of_get_error s kv (s.client.Get kv id).1 ⟨id, [], s.Options, true, name⟩ e
      (Prod.ext rfl he)
    rw [New_of_load_error s kv _ r name c id _ _ hc hd hl]
    refine ⟨rfl, rfl, fun _ => rfl⟩
  · have hl := load_of_no_record s kv (s.client.Get kv id).1 ⟨id, [], s.Options, true, name⟩
      (Prod.ext rfl he)
    rw [New_of_load_error s kv _ r name c id _ _ hc hd hl]
    refine ⟨rfl, rfl, fun _ => rfl⟩
  · have hl := load_of_record s kv (s.client.Get kv id).1 ⟨id, [], s.Options, true, name⟩
      first rest (Prod.ext rfl he)
    simp only [hdec] at hl
    rw [New_of_load_error s kv _ r name c id _ _ hc hd hl]
    refine ⟨rfl, rfl, fun h => ?_⟩
    rw [he] at h
    cases h

/-- C2 on a run: the cookie decodes to `ABCDEFGH` and the in-memory store has no record. -/
theorem New_store_read_failure_witness :
    (memStore.New [] (requestWith "session" "k1|session|ABCDEFGH") "session").err = none ∧
      (memStore.New [] (requestWith "session" "k1|session|ABCDEFGH") "session").session.IsNew
        = true ∧
      ((memStore.client.Get [] "ABCDEFGH").2 = .ok [] →
        (memStore.New [] (requestWith "session" "k1|session|ABCDEFGH") "session").session.Values
          = []) :=
  New_store_read_failure memStore [] (requestWith "session" "k1|session|ABCDEFGH") "session"
    ⟨"session", "k1|session|ABCDEFGH", "", "", 0, false, false⟩ "ABCDEFGH" (by decide)
    (by decide) (Or.inr (Or.inl rfl))

/-- C3: when the backend `Put` fails, `Save` returns the error of the backend and the
response is left as it was: no cookie is set. -/
theorem Save_put_failure {σ : Type} (s : EtcdStore σ) (kv : σ) (randomKey : List Byte)
    (r : Request) (w : ResponseWriter) (session : Session) (encoded : String) (e : String)
    (henc : EncodeMulti Codec.EncodeValues session.name session.Values s.Codecs = .ok encoded)
    (hput : (s.client.Put kv (s.Save kv randomKey r w session).session.ID encoded).2 = some e) :
    (s.Save kv randomKey r w session).err = some (.etcd e) ∧
      (s.Save kv randomKey r w session).w = w := by
  rw [Save_eq] at hput ⊢
  rw [Save.rest_session] at hput
  rw [Save.rest_of_put_error s kv w _ encoded _ e (by split <;> exact henc) (Prod.ext rfl hput)]
  exact ⟨rfl, rfl⟩

/-- C3 on a run: the backend is down, so the `Put` of `Save` fails. -/
theorem Save_put_failure_witness :
    (downStore.Save () someKey noCookies ⟨[]⟩ (NewSession "session")).err =
        some (.etcd "etcdserver: request timed out") ∧
      (downStore.Save () someKey noCookies ⟨[]⟩ (NewSession "session")).w = ⟨[]⟩ :=
  Save_put_failure downStore () someKey noCookies ⟨[]⟩ (NewSession "session") "k1|session|"
    "etcdserver: request timed out" rfl (by decide)

/-- C5: `Save` on a session whose identifier is not empty keeps the identifier, and the one
write it makes to the store is the `Put` under that identifier (no write at all when the
values do not encode). So an identifier is generated only when it is the empty string. -/
theorem Save_keeps_identifier {σ : Type} (s : EtcdStore σ) (kv : σ) (randomKey : List Byte)
    (r : Request) (w : ResponseWriter) (session : Session) (h : session.ID ≠ "") :
    (s.Save kv randomKey r w session).session.ID = session.ID ∧
      (∀ encoded,
        EncodeMulti Codec.EncodeValues session.name session.Values s.Codecs = .ok encoded →
        (s.Save kv randomKey r w session).kv = (s.client.Put kv session.ID encoded).1) ∧
      (∀ e, EncodeMulti Codec.EncodeValues session.name session.Values s.Codecs = .error e →
        (s.Save kv randomKey r w session).kv = kv) := by
  rw [Save_eq]
  simp only [h, if_false]
  refine ⟨by rw [Save.rest_session], fun encoded henc => Save.rest_kv s kv w session encoded henc,
    fun e henc => ?_⟩
  rw [Save.rest_of_encode_error s kv w session e henc]

/-- C5 on a run: a session that comes with the identifier `OLDID`. -/
theorem Save_keeps_identifier_witness :
    (⟨"OLDID", [("user", "alice")], memStore.Options, false, "session"⟩ : Session).ID ≠ "" ∧
      (memStore.Save [] someKey noCookies ⟨[]⟩
        ⟨"OLDID", [("user", "alice")], memStore.Options, false, "session"⟩).session.ID
        = "OLDID" :=
  ⟨by decide,
    (Save_keeps_identifier memStore [] someKey noCookies ⟨[]⟩
      ⟨"OLDID", [("user", "alice")], memStore.Options, false, "session"⟩ (by decide)).1⟩

/-- C9: when the values of the session do not encode through the codec chain, `Save`
returns the encoding error, makes no `Put` (the store is as it was) and sets no cookie (the
response is as it was). -/
theorem Save_encode_failure {σ : Type} (s : EtcdStore σ) (kv : σ) (randomKey : List Byte)
    (r : Request) (w : ResponseWriter) (session : Session) (e : GoError)
    (henc : EncodeMulti Codec.EncodeValues session.name session.Values s.Codecs = .error e) :
    (s.Save kv randomKey r w session).err = some e ∧
      (s.Save kv randomKey r w session).kv = kv ∧
      (s.Save kv randomKey r w session).w = w := by
  rw [Save_eq, Save.rest_of_encode_error s kv w _ e (by split <;> exact henc)]
  exact ⟨rfl, rfl, rfl⟩

/-- C9 on a run: the toy codec cannot serialise the key `a=b`. -/
theorem Save_encode_failure_witness :
    (memStore.Save [⟨"K", "v"⟩] someKey noCookies ⟨[]⟩
        ⟨"", [("a=b", "c")], memStore.Options, true, "session"⟩).err =
        some (.MultiError ["toy: value cannot be serialised"]) ∧
      (memStore.Save [⟨"K", "v"⟩] someKey noCookies ⟨[]⟩
        ⟨"", [("a=b", "c")], memStore.Options, true, "session"⟩).kv = [⟨"K", "v"⟩] ∧
      (memStore.Save [⟨"K", "v"⟩] someKey noCookies ⟨[]⟩
        ⟨"", [("a=b", "c")], memStore.Options, true, "session"⟩).w = ⟨[]⟩ :=
  Save_encode_failure memStore [⟨"K", "v"⟩] someKey noCookies ⟨[]⟩
    ⟨"", [("a=b", "c")], memStore.Options, true, "session"⟩
    (.MultiError ["toy: value cannot be serialised"]) rfl

/-- C7: the identifier `Save` generates from a 32-byte random key has exactly 52 characters,
each of them one of `A`-`Z`, `2`-`7`, and none of them the padding `=`. -/
theorem Save_generated_identifier_shape {σ : Type} (s : EtcdStore σ) (kv : σ)
    (randomKey : List Byte) (r : Request) (w : ResponseWriter) (session : Session)
    (hid : session.ID = "") (hlen : randomKey.length = 32) :
    (s.Save kv randomKey r w session).session.ID.length = 52 ∧
      (∀ c ∈ (s.Save kv randomKey r w session).session.ID.data, IsStdChar c) ∧
      '=' ∉ (s.Save kv randomKey r w session).session.ID.data := by
  obtain ⟨body, ht, -, hstd, hbody⟩ := TrimRight_EncodeToString randomKey
  rw [Save_session_ID, if_pos hid, ht]
  refine ⟨?_, hstd, fun hmem => (hstd _ hmem).ne_pad rfl⟩
  rw [String.length, hbody, hlen]

/-- C7 on a run: the random key is 0, 1, ..., 31. -/
theorem Save_generated_identifier_shape_witness :
    (NewSession "session").ID = "" ∧ someKey.length = 32 ∧
      (memStore.Save [] someKey noCookies ⟨[]⟩ (NewSession "session")).session.ID.length = 52 ∧
      (∀ c ∈ (memStore.Save [] someKey noCookies ⟨[]⟩ (NewSession "session")).session.ID.data,
        IsStdChar c) ∧
      '=' ∉ (memStore.Save [] someKey noCookies ⟨[]⟩ (NewSession "session")).session.ID.data :=
  ⟨rfl, by decide,
    Save_generated_identifier_shape memStore [] someKey noCookies ⟨[]⟩ (NewSession "session")
      rfl (by decide)⟩

/-- C8: two calls of `Save` that generate an identifier from distinct 32-byte random keys
generate distinct identifiers: the map from the key to the identifier is injective. -/
theorem Save_distinct_keys_distinct_identifiers {σ : Type} (s1 s2 : EtcdStore σ) (kv1 kv2 : σ)
    (key1 key2 : List Byte) (r1 r2 : Request) (w1 w2 : ResponseWriter)
    (session1 session2 : Session)
    (hid1 : session1.ID = "") (hid2 : session2.ID = "")
    (hlen1 : key1.length = 32) (hlen2 : key2.length = 32) (hne : key1 ≠ key2) :
    (s1.Save kv1 key1 r1 w1 session1).session.ID ≠
      (s2.Save kv2 key2 r2 w2 session2).session.ID := by
  rw [Save_session_ID, Save_session_ID, if_pos hid1, if_pos hid2]
  intro h
  exact hne (TrimRight_EncodeToString_injective key1 key2 (hlen1.trans hlen2.symm) h)

/-- C8 on a run: the random keys 0, 1, ..., 31 and 7, 7, ..., 7. -/
theorem Save_distinct_keys_distinct_identifiers_witness :
    (memStore.Save [] someKey noCookies ⟨[]⟩ (NewSession "session")).session.ID ≠
      (memStore.Save [] (List.replicate 32 7) noCookies ⟨[]⟩ (NewSession "session")).session.ID :=
  Save_distinct_keys_distinct_identifiers memStore memStore [] [] someKey (List.replicate 32 7)
    noCookies noCookies ⟨[]⟩ ⟨[]⟩ (NewSession "session") (NewSession "session") rfl rfl
    (by decide) (by decide) (by decide)

/-- C6 against the code, at a session named `bad name`: `Save` returns nil and the record is
put in the store under the identifier, yet the response gets no `Set-Cookie` header, since
`http.SetCookie` writes nothing for a cookie whose name is not a token. -/
theorem Save_invalid_name_sets_no_cookie :
    isCookieNameValid "bad name" = false ∧
      (memStore.Save [] someKey noCookies ⟨[]⟩
        ⟨"OLDID", [], memStore.Options, false, "bad name"⟩).err = none ∧
      (memStore.Save [] someKey noCookies ⟨[]⟩
        ⟨"OLDID", [], memStore.Options, false, "bad name"⟩).kv =
        [⟨"OLDID", "k1|bad name|"⟩] ∧
      (memStore.Save [] someKey noCookies ⟨[]⟩
        ⟨"OLDID", [], memStore.Options, false, "bad name"⟩).w = ⟨[]⟩ := by
  decide

/-- C4, as stated, fails when the encoded identifier holds a byte that a cookie value cannot
hold. The session `session` has the identifier `a;b`; the toy codec decodes what it encodes
and the in-memory store returns what was put; `Save` returns nil and the cookie on the
response is `session=k1|session|ab`. `New` on a request with that cookie finds no record:
`IsNew` is true, the identifier is `ab` and the values are empty. -/
theorem Save_then_New_semicolon_identifier :
    (memStore.Save [] someKey noCookies ⟨[]⟩
        ⟨"a;b", [("user", "alice")], memStore.Options, true, "session"⟩).err = none ∧
      (memStore.Save [] someKey noCookies ⟨[]⟩
        ⟨"a;b", [("user", "alice")], memStore.Options, true, "session"⟩).session.ID = "a;b" ∧
      EncodeMulti Codec.EncodeID "session" "a;b" memStore.Codecs = .ok "k1|session|a;b" ∧
      DecodeMulti Codec.DecodeID "session" "k1|session|a;b" "" memStore.Codecs =
        ("a;b", none) ∧
      EncodeMulti Codec.EncodeValues "session" [("user", "alice")] memStore.Codecs =
        .ok "k1|session|user=alice;" ∧
      DecodeMulti Codec.DecodeValues "session" "k1|session|user=alice;" [] memStore.Codecs =
        ([("user", "alice")], none) ∧
      memStore.client.Get
        (memStore.Save [] someKey noCookies ⟨[]⟩
          ⟨"a;b", [("user", "alice")], memStore.Options, true, "session"⟩).kv "a;b" =
        ([⟨"a;b", "k1|session|user=alice;"⟩], .ok [⟨"a;b", "k1|session|user=alice;"⟩]) ∧
      (memStore.Save [] someKey noCookies ⟨[]⟩
        ⟨"a;b", [("user", "alice")], memStore.Options, true, "session"⟩).w.SetCookies =
        [⟨"session", "k1|session|ab"⟩] ∧
      (requestWith "session" "k1|session|ab").Cookie "session" =
        some ⟨"session", "k1|session|ab", "", "", 0, false, false⟩ ∧
      (memStore.New
        (memStore.Save [] someKey noCookies ⟨[]⟩
          ⟨"a;b", [("user", "alice")], memStore.Options, true, "session"⟩).kv
        (requestWith "session" "k1|session|ab") "session").session.IsNew = true ∧
      (memStore.New
        (memStore.Save [] someKey noCookies ⟨[]⟩
          ⟨"a;b", [("user", "alice")], memStore.Options, true, "session"⟩).kv
        (requestWith "session" "k1|session|ab") "session").session.ID = "ab" ∧
      (memStore.New
        (memStore.Save [] someKey noCookies ⟨[]⟩
          ⟨"a;b", [("user", "alice")], memStore.Options, true, "session"⟩).kv
        (requestWith "session" "k1|session|ab") "session").session.Values = [] :=
  ⟨by decide, by decide, rfl, by decide, rfl, by decide, rfl, by decide, by decide, by decide,
    by decide, by decide⟩

/-- C4, amended, round trip: let `Save` return nil and add to the response the cookie `c`,
let the encoded identifier be a value that `http.SetCookie` writes as it is, and let a
request carry `c`. Assume the codec chain decodes what it encoded (the identifier and the
values of this session) and the backend returns on `Get` what was `Put` under the
identifier. Then `New` on that request, with the name of the session, returns a nil error
and a session with `IsNew` false, the identifier of the saved session and the values that
were saved. -/
theorem Save_then_New_round_trip {σ : Type} (s : EtcdStore σ) (kv : σ)
    (randomKey : List Byte) (r : Request) (w : ResponseWriter) (session : Session)
    (r2 : Request) (c : SetCookieHeader)
    (hsave : (s.Save kv randomKey r w session).err = none)
    (hemit : (s.Save kv randomKey r w session).w.SetCookies = w.SetCookies ++ [c])
    (hreq : r2.carries c)
    (hsafe : ∀ enc,
      EncodeMulti Codec.EncodeID session.name (s.Save kv randomKey r w session).session.ID
        s.Codecs = .ok enc →
      sanitizeCookieValue enc = enc)
    (hcodecID : ∀ enc,
      EncodeMulti Codec.EncodeID session.name (s.Save kv randomKey r w session).session.ID
        s.Codecs = .ok enc →
      DecodeMulti Codec.DecodeID session.name enc "" s.Codecs =
        ((s.Save kv randomKey r w session).session.ID, none))
    (hcodecV : ∀ enc,
      EncodeMulti Codec.EncodeValues session.name session.Values s.Codecs = .ok enc →
      DecodeMulti Codec.DecodeValues session.name enc [] s.Codecs = (session.Values, none))
    (hstore : ∀ enc kv1,
      s.client.Put kv (s.Save kv randomKey r w session).session.ID enc = (kv1, none) →
      ∃ kv2 first rest,
        s.client.Get kv1 (s.Save kv randomKey r w session).session.ID =
          (kv2, .ok (first :: rest)) ∧ first.Value = enc) :
    (s.New (s.Save kv randomKey r w session).kv r2 session.name).err = none ∧
      (s.New (s.Save kv randomKey r w session).kv r2 session.name).session.IsNew = false ∧
      (s.New (s.Save kv randomKey r w session).kv r2 session.name).session.ID =
        (s.Save kv randomKey r w session).session.ID ∧
      (s.New (s.Save kv randomKey r w session).kv r2 session.name).session.Values =
        session.Values := by
  have hE := Save_eq s kv randomKey r w session
  have hn : (if session.ID = "" then
      { session with ID := TrimRight (EncodeToString randomKey) "=" } else session).name =
      session.name := by split <;> rfl
  have hv : (if session.ID = "" then
      { session with ID := TrimRight (EncodeToString randomKey) "=" } else session).Values =
      session.Values := by split <;> rfl
  obtain ⟨encV, encID, kv1, hV, hP, hI, hR⟩ := Save.rest_of_success s kv w _ (hE ▸ hsave)
  rw [hn] at hI
  rw [hn, hv] at hV
  have hres := hE.trans hR
  rw [hres] at hemit hsafe hcodecID hstore ⊢
  simp only at hemit hsafe hcodecID hstore ⊢
  obtain ⟨c2, hc2, hval⟩ := hreq
  have hcq : c = ⟨session.name, encID⟩ := by
    unfold SetCookie at hemit
    by_cases hname : isCookieNameValid (NewCookie session.name encID
        (if session.ID = "" then
          { session with ID := TrimRight (EncodeToString randomKey) "=" }
        else session).Options).Name = true
    · rw [hn, if_pos hname] at hemit
      simp only [NewCookie, hsafe encID hI] at hemit
      have := List.append_cancel_left hemit
      simpa using this.symm
    · rw [hn, if_neg hname] at hemit
      have := congrArg List.length hemit
      simp at this
  subst hcq
  simp only at hc2 hval
  have hD := hcodecID encID hI
  rw [← hval] at hD
  obtain ⟨kv2, first, rest, hG, hfv⟩ := hstore encV kv1 hP
  have hL := load_of_record s kv1 kv2 ⟨_, [], s.Options, true, session.name⟩ first rest hG
  simp only [hfv, hcodecV encV hV] at hL
  rw [New_of_decode_ok s kv1 r2 session.name c2 _ hc2 hD, hL]
  exact ⟨rfl, rfl, rfl, rfl⟩

/-- C4, amended, on a run: a new session with `user = alice` is saved to the in-memory
store, and the cookie comes back. -/
theorem Save_then_New_round_trip_witness :
    (memStore.Save [] someKey noCookies ⟨[]⟩
        ⟨"", [("user", "alice")], memStore.Options, true, "session"⟩).err = none ∧
      (memStore.Save [] someKey noCookies ⟨[]⟩
        ⟨"", [("user", "alice")], memStore.Options, true, "session"⟩).w.SetCookies =
        [] ++ [⟨"session", "k1|session|AAAQEAYEAUDAOCAJBIFQYDIOB4IBCEQTCQKRMFYYDENBWHA5DYPQ"⟩] ∧
      (memStore.New
        (memStore.Save [] someKey noCookies ⟨[]⟩
          ⟨"", [("user", "alice")], memStore.Options, true, "session"⟩).kv
        (requestWith "session" "k1|session|AAAQEAYEAUDAOCAJBIFQYDIOB4IBCEQTCQKRMFYYDENBWHA5DYPQ")
        "session").err = none ∧
      (memStore.New
        (memStore.Save [] someKey noCookies ⟨[]⟩
          ⟨"", [("user", "alice")], memStore.Options, true, "session"⟩).kv
        (requestWith "session" "k1|session|AAAQEAYEAUDAOCAJBIFQYDIOB4IBCEQTCQKRMFYYDENBWHA5DYPQ")
        "session").session.IsNew = false ∧
      (memStore.New
        (memStore.Save [] someKey noCookies ⟨[]⟩
          ⟨"", [("user", "alice")], memStore.Options, true, "session"⟩).kv
        (requestWith "session" "k1|session|AAAQEAYEAUDAOCAJBIFQYDIOB4IBCEQTCQKRMFYYDENBWHA5DYPQ")
        "session").session.ID =
        (memStore.Save [] someKey noCookies ⟨[]⟩
          ⟨"", [("user", "alice")], memStore.Options, true, "session"⟩).session.ID ∧
      (memStore.New
        (memStore.Save [] someKey noCookies ⟨[]⟩
          ⟨"", [("user", "alice")], memStore.Options, true, "session"⟩).kv
        (requestWith "session" "k1|session|AAAQEAYEAUDAOCAJBIFQYDIOB4IBCEQTCQKRMFYYDENBWHA5DYPQ")
        "session").session.Values = [("user", "alice")] :=
  ⟨by decide, by decide,
    Save_then_New_round_trip memStore [] someKey noCookies ⟨[]⟩
      ⟨"", [("user", "alice")], memStore.Options, true, "session"⟩
      (requestWith "session" "k1|session|AAAQEAYEAUDAOCAJBIFQYDIOB4IBCEQTCQKRMFYYDENBWHA5DYPQ")
      ⟨"session", "k1|session|AAAQEAYEAUDAOCAJBIFQYDIOB4IBCEQTCQKRMFYYDENBWHA5DYPQ"⟩
      (by decide) (by decide)
      ⟨⟨"session", "k1|session|AAAQEAYEAUDAOCAJBIFQYDIOB4IBCEQTCQKRMFYYDENBWHA5DYPQ", "", "",
          0, false, false⟩, by decide, by decide⟩
      (fun enc henc => by
        have he : enc = "k1|session|AAAQEAYEAUDAOCAJBIFQYDIOB4IBCEQTCQKRMFYYDENBWHA5DYPQ" :=
          (Except.ok.inj henc).symm
        subst he
        decide)
      (fun enc henc => by
        have he : enc = "k1|session|AAAQEAYEAUDAOCAJBIFQYDIOB4IBCEQTCQKRMFYYDENBWHA5DYPQ" :=
          (Except.ok.inj henc).symm
        subst he
        decide)
      (fun enc henc => by
        have he : enc = "k1|session|user=alice;" := (Except.ok.inj henc).symm
        subst he
        decide)
      (fun enc kv1 hput =>
        ⟨kv1,
          ⟨"AAAQEAYEAUDAOCAJBIFQYDIOB4IBCEQTCQKRMFYYDENBWHA5DYPQ", enc⟩, [], by
          have hk : kv1 = [⟨"AAAQEAYEAUDAOCAJBIFQYDIOB4IBCEQTCQKRMFYYDENBWHA5DYPQ", enc⟩] :=
            (congrArg Prod.fst hput).symm
          subst hk
          simp [memStore, memClient]
          decide, rfl⟩)⟩

/-- C10, as stated, fails when the cookie decodes to the empty identifier: `New` returns it
with `IsNew` true, and the following `Save` generates a new identifier and writes the record
under the new one. -/
theorem Save_after_empty_cookie_identifier_generates :
    DecodeMulti Codec.DecodeID "session" "k1|session|" "" memStore.Codecs = ("", none) ∧
      (memStore.load [] ⟨"", [], memStore.Options, true, "session"⟩).2.1 =
        some .KvsEmpty ∧
      (memStore.New [] (requestWith "session" "k1|session|") "session").session.IsNew =
        true ∧
      (memStore.New [] (requestWith "session" "k1|session|") "session").session.ID = "" ∧
      (memStore.Save (memStore.New [] (requestWith "session" "k1|session|") "session").kv
        someKey noCookies ⟨[]⟩
        (memStore.New [] (requestWith "session" "k1|session|") "session").session).session.ID =
        "AAAQEAYEAUDAOCAJBIFQYDIOB4IBCEQTCQKRMFYYDENBWHA5DYPQ" ∧
      (memStore.Save (memStore.New [] (requestWith "session" "k1|session|") "session").kv
        someKey noCookies ⟨[]⟩
        (memStore.New [] (requestWith "session" "k1|session|") "session").session).kv =
        [⟨"AAAQEAYEAUDAOCAJBIFQYDIOB4IBCEQTCQKRMFYYDENBWHA5DYPQ", "k1|session|"⟩] := by
  decide

/-- C10, amended: when the cookie decodes to an identifier that is not empty and the load
from the store then fails, `New` returns a session with `IsNew` true that keeps the
identifier decoded from the cookie; a following `Save` on a session with that identifier
generates no identifier and writes its record with a `Put` under that identifier. -/
theorem New_load_failure_keeps_identifier {σ : Type} (s : EtcdStore σ) (kv : σ) (r : Request)
    (name : String) (c : Cookie) (id : String)
    (hc : r.Cookie name = some c)
    (hd : DecodeMulti Codec.DecodeID name c.Value "" s.Codecs = (id, none))
    (hne : id ≠ "")
    (hload : (s.load kv ⟨id, [], s.Options, true, name⟩).2.1 ≠ none) :
    (s.New kv r name).session.IsNew = true ∧ (s.New kv r name).session.ID = id ∧
      ∀ (session : Session) (randomKey : List Byte) (r2 : Request) (w : ResponseWriter),
        session.ID = (s.New kv r name).session.ID →
        (s.Save (s.New kv r name).kv randomKey r2 w session).session.ID = id ∧
        ∀ encoded,
          EncodeMulti Codec.EncodeValues session.name session.Values s.Codecs = .ok encoded →
          (s.Save (s.New kv r name).kv randomKey r2 w session).kv =
            (s.client.Put (s.New kv r name).kv id encoded).1 := by
  have hs := load_session s kv ⟨id, [], s.Options, true, name⟩
  rcases hl : s.load kv ⟨id, [], s.Options, true, name⟩ with ⟨sess1, _ | e, kv1⟩
  · rw [hl] at hload
    exact absurd rfl hload
  rw [hl] at hs
  simp only at hs
  rw [New_of_load_error s kv kv1 r name c id sess1 e hc hd hl]
  have hID : sess1.ID = id := by rw [hs]
  have hNew : sess1.IsNew = true := by rw [hs]
  refine ⟨hNew, hID, fun session randomKey r2 w hsess => ?_⟩
  simp only at hsess ⊢
  rw [hID] at hsess
  have hne2 : session.ID ≠ "" := by rw [hsess]; exact hne
  rw [Save_eq]
  simp only [hne2, if_false]
  refine ⟨by rw [Save.rest_session, hsess], fun encoded henc => ?_⟩
  rw [Save.rest_kv s kv1 w session encoded henc, hsess]

/-- C10, amended, on a run: the cookie decodes to `ABCDEFGH` and the in-memory store has no record. -/
theorem New_load_failure_keeps_identifier_witness :
    (memStore.New [] (requestWith "session" "k1|session|ABCDEFGH") "session").session.IsNew
        = true ∧
      (memStore.New [] (requestWith "session" "k1|session|ABCDEFGH") "session").session.ID
        = "ABCDEFGH" ∧
      (memStore.Save (memStore.New [] (requestWith "session" "k1|session|ABCDEFGH") "session").kv
        someKey noCookies ⟨[]⟩
        (memStore.New [] (requestWith "session" "k1|session|ABCDEFGH") "session").session
        ).session.ID = "ABCDEFGH" :=
  have h := New_load_failure_keeps_identifier memStore []
    (requestWith "session" "k1|session|ABCDEFGH") "session"
    ⟨"session", "k1|session|ABCDEFGH", "", "", 0, false, false⟩ "ABCDEFGH" (by decide)
    (by decide) (by decide) (by decide)
  ⟨h.1, h.2.1, (h.2.2 _ someKey noCookies ⟨[]⟩ rfl).1⟩

end etcdstore
